import Mathlib

/-!
Verification of the Travel-Guide itinerary core: the relevance ranker and
day allocator of `agent.py` (`create_itinerary_simple`), the validated
`TripRequest` model of `models.py`, and the agent-tool haversine distance
(`calculate_distance`).  Python floats are modelled as exact rationals
(costs, budgets, coordinates) and as reals where transcendental functions
enter (the scoring distance); dates are modelled as integers (days).
-/

/-- ASCII lowercasing of a string, modelling Python `str.lower()` on the
ASCII inputs the pace validator and interest matching use. -/
def lowerStr (s : String) : String := ⟨s.data.map Char.toLower⟩

/-- `startsList n h` is true when `n` is an initial segment of `h`. -/
def startsList : List Char → List Char → Bool
  | [], _ => true
  | _ :: _, [] => false
  | a :: as, b :: bs => a == b && startsList as bs

/-- `subList n h` is true when `n` occurs contiguously inside `h`:
Python's `n in h` on strings. -/
def subList (n : List Char) : List Char → Bool
  | [] => startsList n []
  | c :: t => startsList n (c :: t) || subList n t

/-- Python `needle in hay` for strings. -/
def strContainsSub (needle hay : String) : Bool := subList needle.data hay.data

/-- A point of interest, from `models.Place`.  Fields not read by the
ranking/allocation core keep their defaults. -/
structure Place where
  name : String
  category : String
  latitude : ℚ
  longitude : ℚ
  estimated_cost : ℚ := 0
  rating : Option ℚ := none
  time_needed : ℤ := 120
deriving DecidableEq, Repr

/-- A validated trip request, from `models.TripRequest`.  Dates are days
(integers); `budget` is exact dollars. -/
structure TripRequest where
  city : String
  start_date : ℤ
  end_date : ℤ
  budget : ℚ
  interests : List String
  pace : String
  group_size : ℤ
deriving DecidableEq, Repr

/-- The allowed pace values of `TripRequest.validate_pace`. -/
def allowedPaces : List String := ["relaxed", "moderate", "packed"]

/-- `models.TripRequest` construction with pydantic validation:
`budget` gt 0, `group_size` gt 0, pace lowercased and checked against the
allowed list, `end_date` strictly after `start_date`. -/
def mkTripRequest (city : String) (start_date end_date : ℤ) (budget : ℚ)
    (interests : List String) (pace : String) (group_size : ℤ) :
    Except String TripRequest :=
  if 0 < budget then
    if 0 < group_size then
      if lowerStr pace ∈ allowedPaces then
        if start_date < end_date then
          .ok { city := city, start_date := start_date, end_date := end_date,
                budget := budget, interests := interests,
                pace := lowerStr pace, group_size := group_size }
        else .error ("End date must be after start date")
      else .error ("Pace must be one of relaxed, moderate, packed")
    else .error ("group_size must be positive")
  else .error ("budget must be positive")

/-- `TripRequest.num_days`: end date minus start date in whole days. -/
def numDays (t : TripRequest) : ℤ := t.end_date - t.start_date

/-- `TripRequest.daily_budget`: budget / max(num_days, 1). -/
def dailyBudget (t : TripRequest) : ℚ := t.budget / ((max (numDays t) 1 : ℤ) : ℚ)

/-- The pace lookup `pace_map.get(trip.pace, 3)` of the allocator:
relaxed maps to 2, moderate to 3, packed to 5, anything else to 3. -/
def paceTarget (pace : String) : ℕ :=
  if pace = "relaxed" then 2
  else if pace = "moderate" then 3
  else if pace = "packed" then 5
  else 3

/-- Python `round(x, 2)` on the exact rational value: round to a whole
number of cents. -/
def round2 (q : ℚ) : ℚ := ((round (q * 100) : ℤ) : ℚ) / 100

/-- One day of the itinerary, from `models.DayPlan`. -/
structure DayPlan where
  day_index : ℕ
  day_date : ℤ
  places : List Place
  total_cost : ℚ
  notes : String
deriving DecidableEq, Repr

/-- The complete itinerary, from `models.Itinerary` (the wall-clock
`created_at` field is omitted). -/
structure Itinerary where
  trip_request : TripRequest
  days : List DayPlan
  total_cost : ℚ
  notes : String
deriving DecidableEq, Repr

/-- The allocator's inner `while` loop for one day (`create_itinerary_simple`
lines 282-290): starting from running cost `cost` with `n` places already in
the day, keep taking the head of the ranked queue while the day is below
`target` places and the head's cost (times group size) would keep the running
cost at or under `cap`.  Returns (places taken, final running cost,
unconsumed rest of the queue); the loop stops at the first rejected POI. -/
def packDay (cap gs : ℚ) (target : ℕ) : ℚ → ℕ → List Place → List Place × ℚ × List Place
  | cost, _, [] => ([], cost, [])
  | cost, n, p :: rest =>
    if n < target ∧ cost + p.estimated_cost * gs ≤ cap then
      let r := packDay cap gs target (cost + p.estimated_cost * gs) (n + 1) rest
      (p :: r.1, r.2.1, r.2.2)
    else ([], cost, p :: rest)

/-- The per-day packing call of the allocator: budget cap
`daily_budget * 1.2`, running cost initialised to the meal allowance
`40 * group_size`, zero places taken so far. -/
def dayPack (t : TripRequest) (queue : List Place) : List Place × ℚ × List Place :=
  packDay (dailyBudget t * (6 / 5)) (t.group_size : ℚ) (paceTarget t.pace)
    (40 * (t.group_size : ℚ)) 0 queue

/-- The allocator's day loop (`create_itinerary_simple` lines 272-306):
`k` days remain, the next day is day number `dayNum`, `queue` is the
unconsumed tail of the ranked list. -/
def goAlloc (t : TripRequest) : ℕ → ℕ → List Place → List DayPlan
  | 0, _, _ => []
  | k + 1, dayNum, queue =>
    let gs : ℚ := (t.group_size : ℚ)
    let r := dayPack t queue
    { day_index := dayNum,
      day_date := t.start_date + (dayNum : ℤ) - 1,
      places := r.1,
      total_cost := round2 (r.2.1 + 15 * gs),
      notes := "Includes meals (~$" ++ toString (round (40 * gs)) ++
        ") and transport (~$" ++ toString (round (15 * gs)) ++ ")" }
      :: goAlloc t k (dayNum + 1) r.2.2

/-- The allocator: `for day_num in range(1, trip.num_days + 1)` with the
shared queue cursor threaded through the days. -/
def allocDays (t : TripRequest) (ranked : List Place) : List DayPlan :=
  goAlloc t (numDays t).toNat 1 ranked

/-- The trip-level summary sentence of `create_itinerary_simple`
(line 311). -/
def summaryText (t : TripRequest) (status : String) : String :=
  "Itinerary created for " ++ toString (numDays t) ++ " days with " ++
    t.pace ++ " pace. Total cost is " ++ status ++ "."

/-- Itinerary assembly from the allocator's day plans
(`create_itinerary_simple` lines 308-318): sum the day totals, compare the
sum against the trip budget for the summary wording, and round the total to
cents. -/
def assembleItinerary (t : TripRequest) (ranked : List Place) : Itinerary :=
  let daily_plans := allocDays t ranked
  let total_cost := (daily_plans.map (fun d => d.total_cost)).sum
  let budget_status :=
    if total_cost ≤ t.budget then "within budget" else "slightly over budget"
  { trip_request := t,
    days := daily_plans,
    total_cost := round2 total_cost,
    notes := summaryText t budget_status }

/-- Total estimated cost of a list of places (per person). -/
def costSum (l : List Place) : ℚ := (l.map (fun p => p.estimated_cost)).sum

theorem costSum_nil : costSum [] = 0 := rfl

theorem costSum_cons (p : Place) (l : List Place) :
    costSum (p :: l) = p.estimated_cost + costSum l := by
  simp [costSum]

/-- The day loop consumes the queue from the front: the places taken,
followed by the unconsumed rest, reassemble the queue. -/
theorem packDay_append (cap gs : ℚ) (tgt : ℕ) :
    ∀ (q : List Place) (cost : ℚ) (n : ℕ),
      (packDay cap gs tgt cost n q).1 ++ (packDay cap gs tgt cost n q).2.2 = q := by
  intro q
  induction q with
  | nil => intro cost n; rfl
  | cons p rest ih =>
    intro cost n
    by_cases h : n < tgt ∧ cost + p.estimated_cost * gs ≤ cap
    · simp only [packDay, if_pos h, List.cons_append, List.cons.injEq, true_and]
      exact ih _ _
    · simp [packDay, if_neg h]

/-- The running cost returned by the day loop is the initial running cost
plus the cost of every place taken, scaled by group size. -/
theorem packDay_cost (cap gs : ℚ) (tgt : ℕ) :
    ∀ (q : List Place) (cost : ℚ) (n : ℕ),
      (packDay cap gs tgt cost n q).2.1 =
        cost + costSum (packDay cap gs tgt cost n q).1 * gs := by
  intro q
  induction q with
  | nil => intro cost n; simp [packDay, costSum]
  | cons p rest ih =>
    intro cost n
    by_cases h : n < tgt ∧ cost + p.estimated_cost * gs ≤ cap
    · simp only [packDay, if_pos h]
      rw [ih, costSum_cons]
      ring
    · simp [packDay, if_neg h, costSum]

/-- Every place the day loop takes was admitted under the loop's guard at
the moment it was taken: the day was still below the target count and the
running cost so far plus this place's scaled cost stayed at or under the
cap. -/
theorem packDay_steps (cap gs : ℚ) (tgt : ℕ) :
    ∀ (q : List Place) (cost : ℚ) (n : ℕ) (l₁ : List Place) (p : Place) (l₂ : List Place),
      (packDay cap gs tgt cost n q).1 = l₁ ++ p :: l₂ →
      n + l₁.length < tgt ∧ cost + costSum l₁ * gs + p.estimated_cost * gs ≤ cap := by
  intro q
  induction q with
  | nil =>
    intro cost n l₁ p l₂ h
    simp [packDay] at h
  | cons x rest ih =>
    intro cost n l₁ p l₂ h
    by_cases hc : n < tgt ∧ cost + x.estimated_cost * gs ≤ cap
    · simp only [packDay, if_pos hc] at h
      cases l₁ with
      | nil =>
        simp only [List.nil_append, List.cons.injEq] at h
        obtain ⟨rfl, -⟩ := h
        refine ⟨by simpa using hc.1, ?_⟩
        rw [costSum_nil]
        have := hc.2
        linarith
      | cons y l₁ =>
        simp only [List.cons_append, List.cons.injEq] at h
        obtain ⟨rfl, h⟩ := h
        obtain ⟨h1, h2⟩ := ih _ _ l₁ p l₂ h
        refine ⟨by simp only [List.length_cons]; omega, ?_⟩
        rw [costSum_cons]
        linarith
    · simp only [packDay, if_neg hc] at h
      simp at h

/-- The day loop stops only for cause: whenever it leaves a place at the
head of the unconsumed queue, taking that place would have violated the
guard (day already at the target count, or running cost overflow). -/
theorem packDay_stop (cap gs : ℚ) (tgt : ℕ) :
    ∀ (q : List Place) (cost : ℚ) (n : ℕ) (p : Place) (r2 : List Place),
      (packDay cap gs tgt cost n q).2.2 = p :: r2 →
      ¬(n + (packDay cap gs tgt cost n q).1.length < tgt ∧
        (packDay cap gs tgt cost n q).2.1 + p.estimated_cost * gs ≤ cap) := by
  intro q
  induction q with
  | nil => intro cost n p r2 h; simp [packDay] at h
  | cons x rest ih =>
    intro cost n p r2 h
    by_cases hc : n < tgt ∧ cost + x.estimated_cost * gs ≤ cap
    · simp only [packDay, if_pos hc] at h ⊢
      have hstep := ih _ _ p r2 h
      intro hcontra
      apply hstep
      refine ⟨?_, hcontra.2⟩
      have h1 := hcontra.1
      simp only [List.length_cons] at h1
      omega
    · simp only [packDay, if_neg hc] at h ⊢
      injection h with hx hr
      subst hx
      intro hcontra
      apply hc
      exact ⟨by simpa using hcontra.1, hcontra.2⟩

/-- `dayPack` consumes the queue from the front. -/
theorem dayPack_append (t : TripRequest) (q : List Place) :
    (dayPack t q).1 ++ (dayPack t q).2.2 = q :=
  packDay_append (dailyBudget t * (6 / 5)) (t.group_size : ℚ) (paceTarget t.pace) q
    (40 * (t.group_size : ℚ)) 0

/-- The running cost `dayPack` returns is the meal allowance plus the cost
of the places it took, scaled by group size. -/
theorem dayPack_cost (t : TripRequest) (q : List Place) :
    (dayPack t q).2.1 = 40 * (t.group_size : ℚ) + costSum (dayPack t q).1 * (t.group_size : ℚ) :=
  packDay_cost (dailyBudget t * (6 / 5)) (t.group_size : ℚ) (paceTarget t.pace) q
    (40 * (t.group_size : ℚ)) 0

/-- Places packed into the days of `goAlloc`, concatenated in day order,
form a prefix of the starting queue. -/
theorem goAlloc_flatten_take (t : TripRequest) :
    ∀ (k dayNum : ℕ) (q : List Place),
      ∃ m, ((goAlloc t k dayNum q).map (fun dp => dp.places)).flatten = q.take m := by
  intro k
  induction k with
  | zero => intro dayNum q; exact ⟨0, rfl⟩
  | succ k ih =>
    intro dayNum q
    obtain ⟨m, hm⟩ := ih (dayNum + 1) (dayPack t q).2.2
    refine ⟨(dayPack t q).1.length + m, ?_⟩
    simp only [goAlloc, List.map_cons, List.flatten_cons, hm]
    have happ := dayPack_append t q
    set r := dayPack t q with hr
    rw [← happ, List.take_append]

/-- Day indices and dates produced by `goAlloc`: day numbers count up from
`dayNum` and each date is the start date plus (day number minus one). -/
theorem goAlloc_index_date (t : TripRequest) :
    ∀ (k dayNum : ℕ) (q : List Place),
      (goAlloc t k dayNum q).map (fun dp => (dp.day_index, dp.day_date)) =
        (List.range k).map
          (fun i => (dayNum + i, t.start_date + (dayNum : ℤ) + (i : ℤ) - 1)) := by
  intro k
  induction k with
  | zero => intro dayNum q; rfl
  | succ k ih =>
    intro dayNum q
    rw [List.range_succ_eq_map]
    simp only [goAlloc, List.map_cons, List.map_map]
    congr 1
    · simp
    · rw [ih (dayNum + 1) (dayPack t q).2.2]
      apply List.map_congr_left
      intro i _
      simp only [Function.comp_apply, Nat.succ_eq_add_one, Prod.mk.injEq]
      constructor
      · omega
      · push_cast
        ring

/-- `goAlloc` emits exactly as many day plans as it is asked for. -/
theorem goAlloc_length (t : TripRequest) :
    ∀ (k dayNum : ℕ) (q : List Place), (goAlloc t k dayNum q).length = k := by
  intro k
  induction k with
  | zero => intro dayNum q; rfl
  | succ k ih => intro dayNum q; simp [goAlloc, ih]

/-- `allocDays` emits `max(num_days, 0)` day plans. -/
theorem allocDays_length (t : TripRequest) (q : List Place) :
    (allocDays t q).length = (numDays t).toNat :=
  goAlloc_length t _ 1 q

/-- C2: across the allocator's returned day plans, taken in day order, the
concatenation of the place lists is exactly a prefix of the ranked input
list (so places appear in ranked order with none skipped); when the ranked
input has no duplicates, neither does the concatenation, so no POI is used
twice within or across days. -/
theorem alloc_places_prefix (t : TripRequest) (ranked : List Place) :
    ∃ m, ((allocDays t ranked).map (fun dp => dp.places)).flatten = ranked.take m ∧
      (ranked.Nodup → ((allocDays t ranked).map (fun dp => dp.places)).flatten.Nodup) := by
  obtain ⟨m, hm⟩ := goAlloc_flatten_take t (numDays t).toNat 1 ranked
  rw [allocDays]
  refine ⟨m, hm, fun hnd => ?_⟩
  rw [hm]
  exact hnd.sublist (List.take_sublist m ranked)

/-- C3: each day starts from a running cost of 40 × group_size; a POI is
taken from the front of the queue exactly when the day is below the pace
target, the queue is non-empty, and the new running cost stays at or under
daily_budget × 1.2; the loop stops at the first rejected POI (the head left
unconsumed fails the guard), never skipping ahead.  The pace targets are
relaxed → 2, moderate → 3, packed → 5, default 3. -/
theorem dayPack_greedy (t : TripRequest) (q : List Place) :
    ((dayPack t q).1 ++ (dayPack t q).2.2 = q) ∧
    ((dayPack t q).2.1 =
      40 * (t.group_size : ℚ) + costSum (dayPack t q).1 * (t.group_size : ℚ)) ∧
    (∀ (l₁ : List Place) (p : Place) (l₂ : List Place),
      (dayPack t q).1 = l₁ ++ p :: l₂ →
        l₁.length < paceTarget t.pace ∧
        40 * (t.group_size : ℚ) + costSum l₁ * (t.group_size : ℚ) +
          p.estimated_cost * (t.group_size : ℚ) ≤ dailyBudget t * (6 / 5)) ∧
    (∀ (p : Place) (r2 : List Place),
      (dayPack t q).2.2 = p :: r2 →
        ¬((dayPack t q).1.length < paceTarget t.pace ∧
          (dayPack t q).2.1 + p.estimated_cost * (t.group_size : ℚ) ≤
            dailyBudget t * (6 / 5))) ∧
    paceTarget ("relaxed") = 2 ∧ paceTarget ("moderate") = 3 ∧
    paceTarget ("packed") = 5 ∧
    (∀ s : String, s ∉ allowedPaces → paceTarget s = 3) := by
  refine ⟨dayPack_append t q, dayPack_cost t q, ?_, ?_, by decide, by decide, by decide, ?_⟩
  · intro l₁ p l₂ h
    have := packDay_steps (dailyBudget t * (6 / 5)) (t.group_size : ℚ)
      (paceTarget t.pace) q (40 * (t.group_size : ℚ)) 0 l₁ p l₂ h
    simpa using this
  · intro p r2 h
    have := packDay_stop (dailyBudget t * (6 / 5)) (t.group_size : ℚ)
      (paceTarget t.pace) q (40 * (t.group_size : ℚ)) 0 p r2 h
    simpa using this
  · intro s hs
    unfold paceTarget
    split_ifs with h1 h2 h3
    · exact absurd (by simp [allowedPaces, h1]) hs
    · exact absurd (by simp [allowedPaces, h2]) hs
    · exact absurd (by simp [allowedPaces, h3]) hs
    · rfl

/-- C6: the allocator returns exactly num_days day plans (none when
num_days is zero or negative, without crashing), with day_index running
1..num_days and each day's date equal to start_date + (day_index − 1). -/
theorem alloc_day_count_dates (t : TripRequest) (q : List Place) :
    (allocDays t q).length = (numDays t).toNat ∧
    (allocDays t q).map (fun dp => (dp.day_index, dp.day_date)) =
      (List.range (numDays t).toNat).map
        (fun i : ℕ => ((1 + i : ℕ), t.start_date + (i : ℤ))) ∧
    (numDays t ≤ 0 → allocDays t q = []) := by
  refine ⟨allocDays_length t q, ?_, ?_⟩
  · rw [allocDays, goAlloc_index_date t (numDays t).toNat 1 q]
    apply List.map_congr_left
    intro i _
    simp only [Prod.mk.injEq, true_and]
    push_cast
    ring
  · intro h
    rw [allocDays, Int.toNat_of_nonpos h]
    rfl

theorem round2_mono {x y : ℚ} (h : x ≤ y) : round2 x ≤ round2 y := by
  unfold round2
  have hr : round (x * 100) ≤ round (y * 100) := by
    rw [round_eq, round_eq]
    exact Int.floor_mono (by linarith)
  have hc : ((round (x * 100) : ℤ) : ℚ) ≤ ((round (y * 100) : ℤ) : ℚ) := by
    exact_mod_cast hr
  linarith

theorem round2_intCast (k : ℤ) : round2 ((k : ℚ)) = (k : ℚ) := by
  unfold round2
  rw [show ((k : ℚ) * 100) = (((k * 100 : ℤ) : ℚ)) by push_cast; ring, round_intCast]
  push_cast
  ring

theorem round2_cent (m : ℤ) : round2 ((m : ℚ) / 100) = (m : ℚ) / 100 := by
  unfold round2
  rw [div_mul_cancel₀ (m : ℚ) (by norm_num : (100 : ℚ) ≠ 0), round_intCast]

/-- A sum of whole-cent amounts is a whole-cent amount. -/
theorem sum_cent :
    ∀ l : List ℚ, (∀ x ∈ l, ∃ m : ℤ, x = (m : ℚ) / 100) →
      ∃ m : ℤ, l.sum = (m : ℚ) / 100 := by
  intro l
  induction l with
  | nil => intro _; exact ⟨0, by simp⟩
  | cons x l ih =>
    intro h
    obtain ⟨a, ha⟩ := h x (List.mem_cons_self x l)
    obtain ⟨b, hb⟩ := ih (fun y hy => h y (List.mem_cons_of_mem x hy))
    refine ⟨a + b, ?_⟩
    rw [List.sum_cons, ha, hb]
    push_cast
    ring

/-- Every day `goAlloc` emits has total cost
round2(meals + places·group + transport), and its places all come from the
queue it was given. -/
theorem goAlloc_day_facts (t : TripRequest) :
    ∀ (k dayNum : ℕ) (q : List Place), ∀ day ∈ goAlloc t k dayNum q,
      day.total_cost = round2 (40 * (t.group_size : ℚ) +
        costSum day.places * (t.group_size : ℚ) + 15 * (t.group_size : ℚ)) ∧
      ∀ x ∈ day.places, x ∈ q := by
  intro k
  induction k with
  | zero => intro dayNum q day hday; simp [goAlloc] at hday
  | succ k ih =>
    intro dayNum q day hday
    simp only [goAlloc, List.mem_cons] at hday
    rcases hday with h | h
    · subst h
      refine ⟨?_, ?_⟩
      · show round2 ((dayPack t q).2.1 + 15 * (t.group_size : ℚ)) = _
        rw [dayPack_cost t q]
      · intro x hx
        rw [← dayPack_append t q]
        exact List.mem_append_left _ hx
    · obtain ⟨h1, h2⟩ := ih (dayNum + 1) (dayPack t q).2.2 day h
      refine ⟨h1, fun x hx => ?_⟩
      rw [← dayPack_append t q]
      exact List.mem_append_right _ (h2 x hx)

/-- C7: each emitted day's total_cost is round2(40·group + places·group +
15·group); the itinerary total is round2 of the sum of the day totals; and
the summary notes read "within budget" exactly when the total is at most
the budget, "slightly over budget" otherwise, with no other states. -/
theorem itinerary_costs (t : TripRequest) (q : List Place) :
    (∀ day ∈ (assembleItinerary t q).days,
      day.total_cost = round2 (40 * (t.group_size : ℚ) +
        costSum day.places * (t.group_size : ℚ) + 15 * (t.group_size : ℚ))) ∧
    (assembleItinerary t q).total_cost =
      round2 (((assembleItinerary t q).days.map (fun d => d.total_cost)).sum) ∧
    (((assembleItinerary t q).total_cost ≤ t.budget ∧
        (assembleItinerary t q).notes = summaryText t ("within budget")) ∨
      (¬(assembleItinerary t q).total_cost ≤ t.budget ∧
        (assembleItinerary t q).notes = summaryText t ("slightly over budget"))) := by
  have hdays : (assembleItinerary t q).days = allocDays t q := rfl
  have htot : (assembleItinerary t q).total_cost =
      round2 (((allocDays t q).map (fun d => d.total_cost)).sum) := rfl
  have hnotes : (assembleItinerary t q).notes =
      summaryText t (if ((allocDays t q).map (fun d => d.total_cost)).sum ≤ t.budget
        then "within budget" else "slightly over budget") := rfl
  have hcent : round2 (((allocDays t q).map (fun d => d.total_cost)).sum) =
      ((allocDays t q).map (fun d => d.total_cost)).sum := by
    have harg : ∀ x ∈ (allocDays t q).map (fun d => d.total_cost),
        ∃ m : ℤ, x = (m : ℚ) / 100 := by
      intro x hx
      obtain ⟨day, hday, rfl⟩ := List.mem_map.mp hx
      rw [allocDays] at hday
      rw [(goAlloc_day_facts t _ 1 q day hday).1]
      exact ⟨_, rfl⟩
    obtain ⟨m, hm⟩ := sum_cent ((allocDays t q).map (fun d => d.total_cost)) harg
    rw [hm, round2_cent]
  refine ⟨?_, ?_, ?_⟩
  · intro day hday
    rw [hdays, allocDays] at hday
    exact (goAlloc_day_facts t _ 1 q day hday).1
  · rw [htot, hdays]
  · by_cases hb : ((allocDays t q).map (fun d => d.total_cost)).sum ≤ t.budget
    · left
      refine ⟨?_, ?_⟩
      · rw [htot, hcent]; exact hb
      · rw [hnotes, if_pos hb]
    · right
      refine ⟨?_, ?_⟩
      · rw [htot, hcent]; exact hb
      · rw [hnotes, if_neg hb]

/-- C9: with a validated group size (≥ 1) and validated POI costs (≥ 0),
every emitted day costs at least 55 × group_size (meal allowance 40 ×
group_size plus transport 15 × group_size), so no day has total cost 0. -/
theorem day_cost_lower_bound (t : TripRequest) (q : List Place)
    (hgs : 1 ≤ t.group_size) (hq : ∀ p ∈ q, 0 ≤ p.estimated_cost) :
    ∀ day ∈ allocDays t q,
      55 * (t.group_size : ℚ) ≤ day.total_cost ∧ day.total_cost ≠ 0 := by
  intro day hday
  rw [allocDays] at hday
  obtain ⟨htc, hsub⟩ := goAlloc_day_facts t _ 1 q day hday
  have hgsQ : (1 : ℚ) ≤ (t.group_size : ℚ) := by exact_mod_cast hgs
  have hcs : 0 ≤ costSum day.places := by
    rw [costSum]
    apply List.sum_nonneg
    intro x hx
    obtain ⟨p, hp, rfl⟩ := List.mem_map.mp hx
    exact hq p (hsub p hp)
  have hprod : 0 ≤ costSum day.places * (t.group_size : ℚ) :=
    mul_nonneg hcs (by linarith)
  have hs : 55 * (t.group_size : ℚ) ≤ 40 * (t.group_size : ℚ) +
      costSum day.places * (t.group_size : ℚ) + 15 * (t.group_size : ℚ) := by
    linarith
  have h55 : round2 (55 * (t.group_size : ℚ)) = 55 * (t.group_size : ℚ) := by
    rw [show (55 * (t.group_size : ℚ)) = ((55 * t.group_size : ℤ) : ℚ) by push_cast; ring,
      round2_intCast]
  have hle : 55 * (t.group_size : ℚ) ≤ day.total_cost := by
    rw [htc, ← h55]
    exact round2_mono hs
  refine ⟨hle, ?_⟩
  have : (0 : ℚ) < day.total_cost := by linarith
  exact this.ne'

/-- A concrete validated one-day trip for witnesses. -/
def tripEx : TripRequest :=
  { city := "Sample", start_date := 0, end_date := 1, budget := 100,
    interests := [], pace := "moderate", group_size := 1 }

instance : Inhabited DayPlan := ⟨⟨1, 0, [], 0, ""⟩⟩

/-- Witness for C9 at a concrete trip (one day, empty queue): the single
emitted day still costs at least 55. -/
theorem day_cost_lower_bound_witness :
    55 * (tripEx.group_size : ℚ) ≤ (allocDays tripEx []).headI.total_cost ∧
      (allocDays tripEx []).headI.total_cost ≠ 0 := by
  have hlen := allocDays_length tripEx []
  cases halloc : allocDays tripEx [] with
  | nil => rw [halloc] at hlen; simp [numDays, tripEx] at hlen
  | cons a l =>
    have hmem : a ∈ allocDays tripEx [] := by
      rw [halloc]; exact List.mem_cons_self a l
    have h := day_cost_lower_bound tripEx [] (by norm_num [tripEx])
      (fun p hp => absurd hp (List.not_mem_nil p)) a hmem
    simpa using h

/-- Counterexample to C8 as literally stated: the pace string "PACKED" is
not one of relaxed, moderate, packed, yet TripRequest construction accepts
it (the validator lowercases before checking). -/
theorem pace_uppercase_accepted :
    (mkTripRequest ("X") 0 2 100 [] ("PACKED") 1).isOk = true ∧
      ("PACKED" ∉ allowedPaces) := by
  constructor
  · decide
  · decide

/-- C8 (amended): TripRequest construction succeeds exactly when the end
date is strictly after the start date, the budget and group size are
positive, and the lowercased pace is one of relaxed, moderate, packed;
otherwise it fails with a validation error.  (The ranking/allocation
functions `dayPack`, `allocDays`, `assembleItinerary` are total and never
raise.) -/
theorem mkTripRequest_ok_iff (city : String) (sd ed : ℤ) (b : ℚ)
    (il : List String) (pace : String) (gs : ℤ) :
    (mkTripRequest city sd ed b il pace gs).isOk = true ↔
      (sd < ed ∧ 0 < b ∧ 0 < gs ∧ lowerStr pace ∈ allowedPaces) := by
  unfold mkTripRequest
  split_ifs with hb hg hp hd <;> simp [Except.isOk] <;> tauto

/-- C10: TripRequest construction is case-insensitive in pace: whenever the
lowercased pace is an allowed value (and the other fields are valid),
construction succeeds and the stored pace is the lowercased form, itself an
allowed (all-lowercase) value. -/
theorem pace_lowercased (city : String) (sd ed : ℤ) (b : ℚ)
    (il : List String) (pace : String) (gs : ℤ)
    (hp : lowerStr pace ∈ allowedPaces) (hb : 0 < b) (hg : 0 < gs)
    (hd : sd < ed) :
    ∃ t : TripRequest, mkTripRequest city sd ed b il pace gs = .ok t ∧
      t.pace = lowerStr pace ∧ t.pace ∈ allowedPaces := by
  unfold mkTripRequest
  rw [if_pos hb, if_pos hg, if_pos hp, if_pos hd]
  exact ⟨_, rfl, rfl, hp⟩

/-- Witness for C10: the all-uppercase pace "PACKED" is accepted and stored
lowercased. -/
theorem pace_lowercased_witness :
    ∃ t : TripRequest, mkTripRequest ("X") 0 1 100 [] ("PACKED") 1 = .ok t ∧
      t.pace = lowerStr ("PACKED") ∧ t.pace ∈ allowedPaces :=
  pace_lowercased ("X") 0 1 100 [] ("PACKED") 1 (by decide) (by decide)
    (by decide) (by decide)

section StableSort

variable {α β γ : Type} [LinearOrder β]

/-- Stable descending insertion: `x` goes after every element whose key is
at least `f x`.  This is the insertion step of a stable sort by key
descending, the behaviour of Python's `list.sort(key=..., reverse=True)`. -/
def insKey (f : α → β) (x : α) : List α → List α
  | [] => [x]
  | y :: t => if f x ≤ f y then y :: insKey f x t else x :: y :: t

/-- Stable sort by key descending: elements are inserted in input order, so
elements with equal keys keep their relative input order. -/
def sortKey (f : α → β) (l : List α) : List α :=
  l.foldl (fun acc x => insKey f x acc) []

theorem insKey_perm (f : α → β) (x : α) :
    ∀ l : List α, (insKey f x l).Perm (x :: l) := by
  intro l
  induction l with
  | nil => exact List.Perm.refl _
  | cons y t ih =>
    by_cases h : f x ≤ f y
    · simp only [insKey, if_pos h]
      exact (ih.cons y).trans (List.Perm.swap x y t)
    · simp only [insKey, if_neg h]
      exact List.Perm.refl _

theorem sortKey_perm (f : α → β) (l : List α) : (sortKey f l).Perm l := by
  suffices h : ∀ (l acc : List α),
      (List.foldl (fun acc x => insKey f x acc) acc l).Perm (l ++ acc) by
    simpa using h l []
  intro l
  induction l with
  | nil => intro acc; exact List.Perm.refl _
  | cons x t ih =>
    intro acc
    simp only [List.foldl_cons, List.cons_append]
    have h1 := ih (insKey f x acc)
    have h2 : (t ++ insKey f x acc).Perm (t ++ (x :: acc)) :=
      List.Perm.append_left t (insKey_perm f x acc)
    exact (h1.trans h2).trans List.perm_middle

/-- Sorted by key, descending. -/
def SortedDesc (f : α → β) (l : List α) : Prop :=
  l.Pairwise (fun a b => f b ≤ f a)

theorem insKey_sorted (f : α → β) (x : α) :
    ∀ l, SortedDesc f l → SortedDesc f (insKey f x l) := by
  intro l
  induction l with
  | nil => intro _; simp [insKey, SortedDesc]
  | cons y t ih =>
    intro hs
    rw [SortedDesc, List.pairwise_cons] at hs
    obtain ⟨hy, ht⟩ := hs
    by_cases h : f x ≤ f y
    · simp only [insKey, if_pos h]
      rw [SortedDesc, List.pairwise_cons]
      refine ⟨?_, ih ht⟩
      intro z hz
      rcases List.mem_cons.mp ((insKey_perm f x t).mem_iff.mp hz) with rfl | hz2
      · exact h
      · exact hy z hz2
    · simp only [insKey, if_neg h]
      rw [SortedDesc, List.pairwise_cons]
      refine ⟨?_, List.pairwise_cons.mpr ⟨hy, ht⟩⟩
      intro z hz
      rcases List.mem_cons.mp hz with rfl | hz2
      · exact le_of_lt (lt_of_not_le h)
      · exact le_trans (hy z hz2) (le_of_lt (lt_of_not_le h))

theorem sortKey_sorted (f : α → β) (l : List α) : SortedDesc f (sortKey f l) := by
  suffices h : ∀ (l acc : List α), SortedDesc f acc →
      SortedDesc f (List.foldl (fun acc x => insKey f x acc) acc l) by
    exact h l [] List.Pairwise.nil
  intro l
  induction l with
  | nil => intro acc h; simpa using h
  | cons x t ih =>
    intro acc h
    simp only [List.foldl_cons]
    exact ih _ (insKey_sorted f x acc h)

/-- The elements of `l` whose key is exactly `s`, in order. -/
def keyFilter (f : α → β) (s : β) (l : List α) : List α :=
  l.filter (fun y => decide (f y = s))

theorem keyFilter_cons (f : α → β) (s : β) (y : α) (l : List α) :
    keyFilter f s (y :: l) =
      if f y = s then y :: keyFilter f s l else keyFilter f s l := by
  simp only [keyFilter, List.filter_cons]
  by_cases h : f y = s
  · rw [if_pos (by simpa using h), if_pos h]
  · rw [if_neg (by simpa using h), if_neg h]

theorem keyFilter_insKey (f : α → β) (x : α) (s : β) :
    ∀ l, SortedDesc f l →
      keyFilter f s (insKey f x l) =
        if f x = s then keyFilter f s l ++ [x] else keyFilter f s l := by
  intro l
  induction l with
  | nil =>
    intro _
    by_cases h : f x = s
    · simp [insKey, keyFilter, h]
    · simp [insKey, keyFilter, h]
  | cons y t ih =>
    intro hs
    rw [SortedDesc, List.pairwise_cons] at hs
    obtain ⟨hy, ht⟩ := hs
    by_cases hxy : f x ≤ f y
    · simp only [insKey, if_pos hxy]
      rw [keyFilter_cons, ih ht, keyFilter_cons]
      by_cases hy' : f y = s <;> by_cases hx' : f x = s <;> simp [hy', hx']
    · simp only [insKey, if_neg hxy]
      have hyx : f y < f x := lt_of_not_le hxy
      by_cases hx' : f x = s
      · have hempty : keyFilter f s (y :: t) = [] := by
          rw [keyFilter, List.filter_eq_nil_iff]
          intro z hz
          have hzle : f z ≤ f y := by
            rcases List.mem_cons.mp hz with rfl | hz2
            · exact le_refl _
            · exact hy z hz2
          have : f z ≠ s := by
            intro he
            rw [← hx'] at he
            exact absurd (he ▸ hzle) (not_le.mpr hyx)
          simpa using this
        rw [keyFilter_cons, if_pos hx', if_pos hx', hempty]
        simp
      · rw [keyFilter_cons, if_neg hx', if_neg hx']

theorem sortKey_stable (f : α → β) (s : β) (l : List α) :
    keyFilter f s (sortKey f l) = keyFilter f s l := by
  suffices h : ∀ (l acc : List α), SortedDesc f acc →
      keyFilter f s (List.foldl (fun acc x => insKey f x acc) acc l) =
        keyFilter f s acc ++ keyFilter f s l by
    simpa using h l [] List.Pairwise.nil
  intro l
  induction l with
  | nil => intro acc _; simp [keyFilter]
  | cons x t ih =>
    intro acc hacc
    simp only [List.foldl_cons]
    rw [ih _ (insKey_sorted f x acc hacc), keyFilter_insKey f x s acc hacc,
      keyFilter_cons]
    by_cases hx : f x = s
    · simp [hx]
    · simp [hx]

theorem insKey_map (f : α → β) (g : γ → α) (x : γ) :
    ∀ l : List γ, insKey f (g x) (l.map g) = (insKey (fun a => f (g a)) x l).map g := by
  intro l
  induction l with
  | nil => rfl
  | cons y t ih =>
    by_cases h : f (g x) ≤ f (g y)
    · simp only [List.map_cons, insKey, if_pos h, ih]
    · simp only [List.map_cons, insKey, if_neg h]

theorem sortKey_map (f : α → β) (g : γ → α) (l : List γ) :
    sortKey f (l.map g) = (sortKey (fun a => f (g a)) l).map g := by
  suffices h : ∀ (l acc : List γ),
      List.foldl (fun acc x => insKey f x acc) (acc.map g) (l.map g) =
        (List.foldl (fun acc x => insKey (fun a => f (g a)) x acc) acc l).map g by
    simpa using h l []
  intro l
  induction l with
  | nil => intro acc; rfl
  | cons x t ih =>
    intro acc
    simp only [List.map_cons, List.foldl_cons, insKey_map f g x acc]
    exact ih (insKey (fun a => f (g a)) x acc)

end StableSort

/-- The agent-tool haversine distance (`agent.calculate_distance`,
lines 58-73): Earth radius 6371 km, `2 * asin(sqrt a)` central angle. -/
noncomputable def calculate_distance (lat1 lon1 lat2 lon2 : ℝ) : ℝ :=
  let lat1_rad := lat1 * Real.pi / 180
  let lat2_rad := lat2 * Real.pi / 180
  let delta_lat := (lat2 - lat1) * Real.pi / 180
  let delta_lon := (lon2 - lon1) * Real.pi / 180
  let a := Real.sin (delta_lat / 2) ^ 2 +
    Real.cos lat1_rad * Real.cos lat2_rad * Real.sin (delta_lon / 2) ^ 2
  6371 * (2 * Real.arcsin (Real.sqrt a))

theorem calculate_distance_def (lat1 lon1 lat2 lon2 : ℝ) :
    calculate_distance lat1 lon1 lat2 lon2 =
      6371 * (2 * Real.arcsin (Real.sqrt
        (Real.sin ((lat2 - lat1) * Real.pi / 180 / 2) ^ 2 +
          Real.cos (lat1 * Real.pi / 180) * Real.cos (lat2 * Real.pi / 180) *
            Real.sin ((lon2 - lon1) * Real.pi / 180 / 2) ^ 2))) := rfl

/-- The distance used by `create_itinerary_simple`'s ranking (lines
247-249): the plain Euclidean distance between the raw coordinate pairs,
in degrees — not the haversine great-circle distance. -/
noncomputable def eucDegreeDist (clat clon : ℚ) (p : Place) : ℝ :=
  Real.sqrt (((p.latitude : ℝ) - (clat : ℝ)) ^ 2 +
    ((p.longitude : ℝ) - (clon : ℝ)) ^ 2)

/-- The proximity term of `create_itinerary_simple`'s score (line 250):
`max(0, 5 - distance * 100)` on the Euclidean coordinate distance. -/
noncomputable def proximityScoreSimple (clat clon : ℚ) (p : Place) : ℝ :=
  max 0 (5 - eucDegreeDist clat clon p * 100)

/-- One interest matches a POI when the lowercased interest occurs in the
lowercased category or the lowercased name (lines 242-244). -/
def interestHit (i : String) (p : Place) : Bool :=
  strContainsSub (lowerStr i) (lowerStr p.category) ||
    strContainsSub (lowerStr i) (lowerStr p.name)

/-- The rating term: `if place.rating: score += place.rating`; a missing
rating contributes 0 (and a 0.0 rating, falsy in Python, also adds 0). -/
def ratingValue (p : Place) : ℚ := p.rating.getD 0

/-- The budget-friendliness term (lines 257-258). -/
def budgetBonus (db : ℚ) (p : Place) : ℚ :=
  if p.estimated_cost < db / 3 then 2 else 0

/-- The relevance score of `create_itinerary_simple` (lines 238-258),
accumulated in the source's order: interest matches, then proximity, then
rating, then the budget bonus. -/
noncomputable def scoreSimple (interests : List String) (db clat clon : ℚ)
    (p : Place) : ℝ :=
  let s1 := interests.foldl (fun s i => if interestHit i p then s + 5 else s) (0 : ℝ)
  let s2 := s1 + proximityScoreSimple clat clon p
  let s3 := s2 + ((ratingValue p : ℚ) : ℝ)
  if p.estimated_cost < db / 3 then s3 + 2 else s3

/-- The ranker of `create_itinerary_simple` (lines 233-263): score every
place, stable-sort the (place, score) pairs by score descending, project
the places. -/
noncomputable def rankPlaces (interests : List String) (db clat clon : ℚ)
    (places : List Place) : List Place :=
  let scored := places.map (fun p => (p, scoreSimple interests db clat clon p))
  (sortKey (fun pr => pr.2) scored).map (fun pr => pr.1)

theorem rankPlaces_eq_sortKey (interests : List String) (db clat clon : ℚ)
    (l : List Place) :
    rankPlaces interests db clat clon l =
      sortKey (scoreSimple interests db clat clon) l := by
  show (sortKey (fun pr : Place × ℝ => pr.2)
      (l.map (fun p => (p, scoreSimple interests db clat clon p)))).map
        (fun pr => pr.1) =
    sortKey (scoreSimple interests db clat clon) l
  rw [sortKey_map, List.map_map]
  show List.map id (sortKey (scoreSimple interests db clat clon) l) =
    sortKey (scoreSimple interests db clat clon) l
  rw [List.map_id]

/-- C5: the ranker's output is a permutation of its input — same multiset,
same length — and the empty input yields the empty output. -/
theorem rank_perm (interests : List String) (db clat clon : ℚ) (l : List Place) :
    (rankPlaces interests db clat clon l).Perm l ∧
    (rankPlaces interests db clat clon l).length = l.length ∧
    rankPlaces interests db clat clon [] = [] := by
  refine ⟨?_, ?_, rfl⟩
  · rw [rankPlaces_eq_sortKey]
    exact sortKey_perm _ l
  · rw [rankPlaces_eq_sortKey]
    exact (sortKey_perm _ l).length_eq

/-- C4: the ranker's output is sorted by score in non-increasing order
(pairwise, hence for all adjacent pairs), and the sort is stable: for every
score value, the sublist of output elements with that score equals the
sublist of input elements with that score, so equal-scored POIs keep their
relative input order. -/
theorem rank_sorted_stable (interests : List String) (db clat clon : ℚ)
    (l : List Place) :
    (rankPlaces interests db clat clon l).Pairwise
      (fun a b => scoreSimple interests db clat clon b ≤
        scoreSimple interests db clat clon a) ∧
    ∀ s : ℝ, keyFilter (scoreSimple interests db clat clon) s
        (rankPlaces interests db clat clon l) =
      keyFilter (scoreSimple interests db clat clon) s l := by
  constructor
  · rw [rankPlaces_eq_sortKey]
    exact sortKey_sorted _ l
  · intro s
    rw [rankPlaces_eq_sortKey]
    exact sortKey_stable _ s l

theorem foldl_interest (p : Place) :
    ∀ (l : List String) (a : ℝ),
      l.foldl (fun s i => if interestHit i p then s + 5 else s) a =
        a + 5 * ((l.filter (fun i => interestHit i p)).length : ℝ) := by
  intro l
  induction l with
  | nil => intro a; simp
  | cons i t ih =>
    intro a
    by_cases h : interestHit i p = true
    · simp only [List.foldl_cons, List.filter_cons, h, if_true, List.length_cons]
      rw [ih]
      push_cast
      ring
    · simp only [List.foldl_cons, List.filter_cons, h, if_false, Bool.false_eq_true]
      rw [ih]

/-- C1 (amended): the score computed by `create_itinerary_simple`'s ranker
decomposes as 5 × (number of matching interests) + proximity + rating +
budget bonus, where the proximity component is max(0, 5 − 100·d) with d
the plain Euclidean distance between the raw coordinate pairs in degrees
(not the haversine great-circle distance); consequently any POI at
Euclidean coordinate distance ≥ 0.05 degrees from the center contributes 0
proximity. -/
theorem score_decomposition (interests : List String) (db clat clon : ℚ)
    (p : Place) :
    scoreSimple interests db clat clon p =
      5 * ((interests.filter (fun i => interestHit i p)).length : ℝ) +
        proximityScoreSimple clat clon p + ((ratingValue p : ℚ) : ℝ) +
        ((budgetBonus db p : ℚ) : ℝ) ∧
    (∀ (clat2 clon2 : ℚ) (p2 : Place),
      (1 / 20 : ℝ) ≤ eucDegreeDist clat2 clon2 p2 →
        proximityScoreSimple clat2 clon2 p2 = 0) := by
  constructor
  · show (if p.estimated_cost < db / 3 then
        interests.foldl (fun s i => if interestHit i p then s + 5 else s) (0 : ℝ) +
          proximityScoreSimple clat clon p + ((ratingValue p : ℚ) : ℝ) + 2
      else
        interests.foldl (fun s i => if interestHit i p then s + 5 else s) (0 : ℝ) +
          proximityScoreSimple clat clon p + ((ratingValue p : ℚ) : ℝ)) = _
    rw [foldl_interest p interests 0]
    unfold budgetBonus
    by_cases h : p.estimated_cost < db / 3
    · rw [if_pos h, if_pos h]
      push_cast
      ring
    · rw [if_neg h, if_neg h]
      push_cast
      ring
  · intro clat2 clon2 p2 h
    unfold proximityScoreSimple
    apply max_eq_left
    nlinarith [h]

/-- A POI 0.04 degrees of latitude due north of the city center: close
enough that the proximity formulas disagree. -/
def placeNear : Place :=
  { name := "P", category := "c", latitude := 1 / 25, longitude := 0,
    estimated_cost := 100, rating := none, time_needed := 120 }

/-- Counterexample to C1 as stated: for the POI 0.04° from the center,
`create_itinerary_simple`'s score gives a proximity contribution of exactly
1 (its whole score here), while the claimed formula max(0, 5 − d/2) with d
the haversine distance (Earth radius 6371 km) gives a value strictly
greater than 1 — the ranker does not use the haversine proximity. -/
theorem proximity_not_haversine :
    scoreSimple [] 30 0 0 placeNear = 1 ∧
    proximityScoreSimple 0 0 placeNear = 1 ∧
    max 0 (5 - calculate_distance 0 0 (1 / 25) 0 / 2) ≠ 1 := by
  have hd : eucDegreeDist 0 0 placeNear = 1 / 25 := by
    unfold eucDegreeDist placeNear
    push_cast
    rw [show ((1 / 25 : ℝ) - 0) ^ 2 + ((0 : ℝ) - 0) ^ 2 = (1 / 25) ^ 2 by ring]
    rw [Real.sqrt_sq (by norm_num : (0 : ℝ) ≤ 1 / 25)]
  have hprox : proximityScoreSimple 0 0 placeNear = 1 := by
    unfold proximityScoreSimple
    rw [hd, show (5 : ℝ) - 1 / 25 * 100 = 1 by norm_num,
      max_eq_right (by norm_num : (0 : ℝ) ≤ 1)]
  have hscore : scoreSimple [] 30 0 0 placeNear = 1 := by
    show (if placeNear.estimated_cost < (30 : ℚ) / 3 then
        ([] : List String).foldl
          (fun s i => if interestHit i placeNear then s + 5 else s) (0 : ℝ) +
            proximityScoreSimple 0 0 placeNear + ((ratingValue placeNear : ℚ) : ℝ) + 2
      else
        ([] : List String).foldl
          (fun s i => if interestHit i placeNear then s + 5 else s) (0 : ℝ) +
            proximityScoreSimple 0 0 placeNear +
            ((ratingValue placeNear : ℚ) : ℝ)) = 1
    rw [if_neg (by norm_num [placeNear] : ¬placeNear.estimated_cost < (30 : ℚ) / 3)]
    rw [List.foldl_nil, hprox]
    norm_num [ratingValue, placeNear]
  have hpi := Real.pi_pos
  have hsin_nonneg : 0 ≤ Real.sin (Real.pi / 9000) :=
    Real.sin_nonneg_of_nonneg_of_le_pi (by positivity) (by nlinarith)
  have harc : calculate_distance 0 0 (1 / 25) 0 = 6371 * (2 * (Real.pi / 9000)) := by
    rw [calculate_distance_def]
    rw [show ((1 / 25 : ℝ) - 0) * Real.pi / 180 / 2 = Real.pi / 9000 by ring]
    rw [show ((0 : ℝ) - 0) * Real.pi / 180 / 2 = 0 by ring]
    rw [show (0 : ℝ) * Real.pi / 180 = 0 by ring]
    rw [Real.sin_zero, Real.cos_zero]
    rw [show Real.sin (Real.pi / 9000) ^ 2 +
        1 * Real.cos (1 / 25 * Real.pi / 180) * 0 ^ 2 =
      Real.sin (Real.pi / 9000) ^ 2 by ring]
    rw [Real.sqrt_sq hsin_nonneg]
    rw [Real.arcsin_sin (by nlinarith) (by nlinarith)]
  have hgt1 : (1 : ℝ) < 5 - 6371 * Real.pi / 9000 := by
    nlinarith [Real.pi_lt_d2]
  refine ⟨hscore, hprox, ?_⟩
  rw [harc, show (5 : ℝ) - 6371 * (2 * (Real.pi / 9000)) / 2 =
      5 - 6371 * Real.pi / 9000 by ring]
  rw [max_eq_right (by linarith : (0 : ℝ) ≤ 5 - 6371 * Real.pi / 9000)]
  exact ne_of_gt hgt1

/-- The whole of `create_itinerary_simple`: rank the places against the
trip's interests, daily budget and city-center coordinate, then allocate
the ranked list to days and assemble the itinerary. -/
noncomputable def create_itinerary_simple (t : TripRequest) (places : List Place)
    (clat clon : ℚ) : Itinerary :=
  assembleItinerary t (rankPlaces t.interests (dailyBudget t) clat clon places)

theorem create_itinerary_simple_days (t : TripRequest) (places : List Place)
    (clat clon : ℚ) :
    (create_itinerary_simple t places clat clon).days =
      allocDays t (rankPlaces t.interests (dailyBudget t) clat clon places) := rfl
